import Mathlib

/-!
Verification development for the Taste-Tuner repository
(`src/taste_explorer.py`, `src/taste_tuner.py`).

The two Python modules are shallowly embedded below.  Scores are rationals
(`ℚ`); Python dictionaries that preserve insertion order are embedded as
association lists; Python sets are embedded as `Finset String`.  Network
fetch outcomes are passed in as explicit data (a fetch that may fail is an
`Option`- or sum-valued input), so every embedded function is a pure Lean
function over the data the Python code would have observed.
-/

namespace TasteTuner

/-! ## Selection (src/taste_explorer.py, `create_discovery_playlist`, lines 156-166)

`sorted(discovery_scores.items(), key=lambda x: x[1]['score'], reverse=True)`
followed by `sorted_tracks[:playlist_size]` and extraction of the track ids.
Python's `sorted` is a stable sort; with `reverse=True` it places higher
scores first and keeps the original order of equal scores. -/

/-- Stable descending sort of `(track_id, score)` pairs by score, embedding
`sorted(..., key=lambda x: x[1]['score'], reverse=True)` at line 159. -/
def sortByScoreDesc (cands : List (String × ℚ)) : List (String × ℚ) :=
  cands.mergeSort (fun a b => decide (b.2 ≤ a.2))

/-- Embedding of lines 159-166 plus line 177: sort descending by score,
truncate to the first `K` entries, and keep the track ids. -/
def selectTopK (cands : List (String × ℚ)) (K : ℕ) : List String :=
  ((sortByScoreDesc cands).take K).map Prod.fst

theorem sortByScoreDesc_perm (cands : List (String × ℚ)) :
    (sortByScoreDesc cands).Perm cands :=
  List.mergeSort_perm cands _

theorem sortByScoreDesc_sorted (cands : List (String × ℚ)) :
    (sortByScoreDesc cands).Sorted (fun a b => b.2 ≤ a.2) := by
  have h := @List.sorted_mergeSort (String × ℚ)
    (fun a b => decide (b.2 ≤ a.2))
    (fun a b c hab hbc => by
      simp only [decide_eq_true_eq] at *
      exact le_trans hbc hab)
    (fun a b => by
      simp only [Bool.or_eq_true, decide_eq_true_eq]
      exact le_total b.2 a.2)
    cands
  exact h.imp (fun hab => of_decide_eq_true hab)

theorem sortByScoreDesc_length (cands : List (String × ℚ)) :
    (sortByScoreDesc cands).length = cands.length :=
  List.length_mergeSort cands

/-- Score sum of the first `k` entries of a list sorted in decreasing order
dominates the sum of any sub-multiset of size `k`. -/
theorem sum_le_sum_take_of_sorted {l : List ℚ} (hs : l.Sorted (· ≥ ·)) :
    ∀ (k : ℕ) (m : Multiset ℚ), m ≤ ↑l → Multiset.card m = k →
      m.sum ≤ (l.take k).sum := by
  induction l with
  | nil =>
    intro k m hm hk
    have hm0 : m = 0 := by
      have : m ≤ 0 := by simpa using hm
      exact Multiset.le_zero.mp this
    subst hm0
    simp
  | cons a l ih =>
    intro k m hm hk
    by_cases ha : a ∈ m
    · obtain ⟨m', rfl⟩ := Multiset.exists_cons_of_mem ha
      have hm' : m' ≤ ↑l := by
        rw [show ((a :: l : List ℚ) : Multiset ℚ) = a ::ₘ (l : Multiset ℚ) from rfl] at hm
        exact (Multiset.cons_le_cons_iff a).mp hm
      have hk' : Multiset.card m' = k - 1 := by
        simp at hk
        omega
      have hk1 : 1 ≤ k := by
        simp at hk
        omega
      obtain ⟨j, rfl⟩ : ∃ j, k = j + 1 := ⟨k - 1, by omega⟩
      have hkj : Multiset.card m' = j := by omega
      have := ih (List.Sorted.of_cons hs) j m' hm' hkj
      simp only [List.take_succ_cons, List.sum_cons, Multiset.sum_cons]
      exact add_le_add_left this a
    · have hm2 : m ≤ ↑l := by
        rw [show ((a :: l : List ℚ) : Multiset ℚ) = a ::ₘ (l : Multiset ℚ) from rfl] at hm
        exact (Multiset.le_cons_of_not_mem ha).mp hm
      have hmain := ih (List.Sorted.of_cons hs) k m hm2 hk
      refine le_trans hmain ?_
      cases k with
      | zero => simp
      | succ j =>
        have hlen : j + 1 ≤ l.length := by
          have := Multiset.card_le_card hm2
          simp [hk] at this
          omega
        have hj : j < l.length := by omega
        simp only [List.take_succ_cons, List.sum_cons]
        rw [List.sum_take_succ l j hj]
        have hja : l[j] ≤ a := by
          have hmem : l[j] ∈ l := List.getElem_mem hj
          have := (List.pairwise_cons.mp hs).1 _ hmem
          exact this
        have htj : (List.take j l).sum ≤ (List.take j l).sum := le_refl _
        linarith

theorem sortByScoreDesc_map_snd_sorted (cands : List (String × ℚ)) :
    ((sortByScoreDesc cands).map Prod.snd).Sorted (· ≥ ·) := by
  have h := sortByScoreDesc_sorted cands
  exact List.pairwise_map.mpr (h.imp (fun hab => hab))

theorem coe_sortByScoreDesc (cands : List (String × ℚ)) :
    ((sortByScoreDesc cands) : Multiset (String × ℚ)) = ↑cands :=
  Multiset.coe_eq_coe.mpr (sortByScoreDesc_perm cands)

/-- C2: for every candidate pool of size N ≥ K with pairwise distinct scores
(and distinct track ids, as the pool is a Python dict keyed by id), the
selection returns exactly K ids drawn from the pool; every selected
candidate strictly out-scores every unselected one (so the selected set is
exactly the K highest-scoring candidates); and the sum of the selected
scores dominates the score sum of every sub-multiset of exactly K
candidates. -/
theorem selectTopK_optimal (cands : List (String × ℚ)) (K : ℕ)
    (hK : K ≤ cands.length)
    (hids : (cands.map Prod.fst).Nodup)
    (hscores : (cands.map Prod.snd).Nodup) :
    (selectTopK cands K).length = K ∧
    (selectTopK cands K).Nodup ∧
    (∀ tid ∈ selectTopK cands K, tid ∈ cands.map Prod.fst) ∧
    (∀ p ∈ cands, ∀ q ∈ cands,
      p.1 ∈ selectTopK cands K → q.1 ∉ selectTopK cands K → q.2 < p.2) ∧
    (∀ m : Multiset (String × ℚ), m ≤ ↑cands → Multiset.card m = K →
      (m.map Prod.snd).sum ≤
        (((sortByScoreDesc cands).take K).map Prod.snd).sum) := by
  have hperm := sortByScoreDesc_perm cands
  have hsort := sortByScoreDesc_sorted cands
  refine ⟨?_, ?_, ?_, ?_, ?_⟩
  · simp only [selectTopK, List.length_map, List.length_take,
      sortByScoreDesc_length]
    omega
  · have h2 : ((sortByScoreDesc cands).map Prod.fst).Nodup :=
      (List.Perm.nodup_iff (hperm.map Prod.fst)).mpr hids
    have h3 : (((sortByScoreDesc cands).map Prod.fst).take K).Nodup :=
      (List.take_sublist K _).nodup h2
    simpa [selectTopK, List.map_take] using h3
  · intro tid htid
    simp only [selectTopK, List.mem_map] at htid
    obtain ⟨p, hp, rfl⟩ := htid
    have hps : p ∈ sortByScoreDesc cands := List.mem_of_mem_take hp
    exact List.mem_map_of_mem Prod.fst (hperm.mem_iff.mp hps)
  · intro p hpc q hqc hp hq
    simp only [selectTopK, List.mem_map] at hp
    obtain ⟨p', hp', hp'1⟩ := hp
    have hp's : p' ∈ sortByScoreDesc cands := List.mem_of_mem_take hp'
    have hp'c : p' ∈ cands := hperm.mem_iff.mp hp's
    have hpp' : p' = p := List.inj_on_of_nodup_map hids hp'c hpc hp'1
    subst hpp'
    have hqs : q ∈ sortByScoreDesc cands := hperm.mem_iff.mpr hqc
    have hqdrop : q ∈ (sortByScoreDesc cands).drop K := by
      have hqtd : q ∈ (sortByScoreDesc cands).take K
          ++ (sortByScoreDesc cands).drop K := by
        rw [List.take_append_drop]
        exact hqs
      rcases List.mem_append.mp hqtd with h | h
      · exact absurd (List.mem_map_of_mem Prod.fst h) hq
      · exact h
    have hpair : ∀ a ∈ (sortByScoreDesc cands).take K,
        ∀ b ∈ (sortByScoreDesc cands).drop K, b.2 ≤ a.2 := by
      have hs := hsort
      rw [← List.take_append_drop K (sortByScoreDesc cands)] at hs
      exact (List.pairwise_append.mp hs).2.2
    have hle : q.2 ≤ p'.2 := hpair p' hp' q hqdrop
    have hpq : p' ≠ q := by
      intro h
      subst h
      exact hq (by simpa [selectTopK] using List.mem_map_of_mem Prod.fst hp')
    have hne : q.2 ≠ p'.2 := by
      intro h
      exact hpq (List.inj_on_of_nodup_map hscores hpc hqc h.symm)
    exact lt_of_le_of_ne hle hne
  · intro m hm hcard
    have hms : m ≤ ↑(sortByScoreDesc cands) := by
      rw [coe_sortByScoreDesc]
      exact hm
    have hmap : m.map Prod.snd ≤ ↑((sortByScoreDesc cands).map Prod.snd) := by
      have := @Multiset.map_le_map _ _ Prod.snd _ _ hms
      simpa using this
    have hcard' : Multiset.card (m.map Prod.snd) = K := by
      simpa using hcard
    have := sum_le_sum_take_of_sorted (sortByScoreDesc_map_snd_sorted cands)
      K (m.map Prod.snd) hmap hcard'
    rwa [← List.map_take] at this

/-- Concrete three-candidate pool used to exercise the selection theorems. -/
def pool0 : List (String × ℚ) := [("a", 1), ("b", 3), ("c", 2)]

/-- C2 witness: the optimality theorem instantiated at the concrete pool
`pool0` with K = 2; all three hypotheses hold there by computation. -/
theorem selectTopK_optimal_witness :
    (2 ≤ pool0.length ∧ (pool0.map Prod.fst).Nodup ∧
      (pool0.map Prod.snd).Nodup) ∧
    ((selectTopK pool0 2).length = 2 ∧
     (selectTopK pool0 2).Nodup ∧
     (∀ tid ∈ selectTopK pool0 2, tid ∈ pool0.map Prod.fst) ∧
     (∀ p ∈ pool0, ∀ q ∈ pool0,
       p.1 ∈ selectTopK pool0 2 → q.1 ∉ selectTopK pool0 2 → q.2 < p.2) ∧
     (∀ m : Multiset (String × ℚ), m ≤ ↑pool0 → Multiset.card m = 2 →
       (m.map Prod.snd).sum ≤
         (((sortByScoreDesc pool0).take 2).map Prod.snd).sum)) :=
  ⟨⟨by decide, by decide, by decide⟩,
    selectTopK_optimal pool0 2 (by decide) (by decide) (by decide)⟩

/-- C1 counterexample: a pool of a single candidate with K = 2 produces the
truncated one-element id list ["t1"] by normal return — no
InsufficientCandidates condition is signalled anywhere in the code. -/
theorem selectTopK_silent_truncation_cex :
    selectTopK [("t1", (1:ℚ))] 2 = ["t1"] ∧ [("t1", (1:ℚ))].length < 2 := by
  constructor
  · simp [selectTopK, sortByScoreDesc, List.mergeSort_singleton]
  · simp

/-- C1 amended: when the candidate pool has fewer than K entries, the
selection silently returns all N candidate ids (a truncated result); the
code has no InsufficientCandidates failure path. -/
theorem selectTopK_returns_all_when_pool_small (cands : List (String × ℚ))
    (K : ℕ) (h : cands.length < K) :
    (selectTopK cands K).length = cands.length := by
  simp only [selectTopK, List.length_map, List.length_take,
    sortByScoreDesc_length]
  omega

/-- C1 witness: the amended theorem applied to the one-candidate pool with
K = 2. -/
theorem selectTopK_returns_all_when_pool_small_witness :
    [(("t1" : String), (1:ℚ))].length < 2 ∧
      (selectTopK [("t1", (1:ℚ))] 2).length = [(("t1" : String), (1:ℚ))].length :=
  ⟨by decide, selectTopK_returns_all_when_pool_small _ 2 (by decide)⟩

/-! ## Taste graph state (src/taste_explorer.py, lines 42-46)

The five accumulator maps of `TasteExplorer.__init__`.  The four
`defaultdict(set)` maps are embedded as insertion-ordered association lists
from keys to `Finset String`; a read of a missing key inserts an empty set
(Python's default-on-read), which the embedding makes explicit by returning
the possibly-extended map. -/

/-- Per-track record stored in `self.track_features` (lines 90-96). -/
structure TrackInfo where
  name : String
  popularity : ℕ
  preview_url : Option String
  artist_name : String
  artist_id : String
deriving DecidableEq

/-- Insertion-ordered Python dict from strings to sets of strings. -/
abbrev SMap := List (String × Finset String)

/-- Lookup with the `defaultdict(set)` default: missing keys read as `∅`. -/
def lookupD (m : SMap) (k : String) : Finset String :=
  (m.lookup k).getD ∅

/-- Read of a `defaultdict(set)` entry: returns the stored set, but first
inserts an empty set under the key when the key is absent, so the read also
returns the possibly-extended map. -/
def dread (m : SMap) (k : String) : Finset String × SMap :=
  match m.lookup k with
  | some v => (v, m)
  | none => (∅, m ++ [(k, ∅)])

/-- `m[k].add(v)` on a `defaultdict(set)`: insert `v` into the set stored
under `k`, creating the entry when the key is absent. -/
def dadd (m : SMap) (k v : String) : SMap :=
  match m with
  | [] => [(k, {v})]
  | (k', s) :: rest =>
    if k' = k then (k', insert v s) :: rest else (k', s) :: dadd rest k v

/-- The in-memory graph state of a `TasteExplorer` run (lines 42-46). -/
structure GraphState where
  artist_connections : SMap
  artist_genres : SMap
  genre_artists : SMap
  artist_tracks : SMap
  track_features : List (String × TrackInfo)
deriving DecidableEq

/-- One iteration of the genre loop of `build_music_graph` (lines 80-82):
`self.artist_genres[artist_id].add(genre)` followed by
`self.genre_artists[genre].add(artist_id)`. -/
def add_artist_genre (s : GraphState) (artistId genre : String) : GraphState :=
  { s with
    artist_genres := dadd s.artist_genres artistId genre,
    genre_artists := dadd s.genre_artists genre artistId }

theorem dadd_idem (m : SMap) (k v : String) :
    dadd (dadd m k v) k v = dadd m k v := by
  induction m with
  | nil => simp [dadd]
  | cons e rest ih =>
    rcases e with ⟨k', s⟩
    by_cases h : k' = k
    · simp [dadd, h]
    · simp [dadd, h, ih]

/-- C9: adding the same (artist, genre) pair twice is idempotent — the second
addition changes nothing at all (in particular, neither the artist's genre
set nor the inverse genre → artists index, nor their sizes). -/
theorem add_artist_genre_idempotent (s : GraphState) (a g : String) :
    add_artist_genre (add_artist_genre s a g) a g = add_artist_genre s a g ∧
    (lookupD (add_artist_genre (add_artist_genre s a g) a g).artist_genres a).card
      = (lookupD (add_artist_genre s a g).artist_genres a).card ∧
    (lookupD (add_artist_genre (add_artist_genre s a g) a g).genre_artists g).card
      = (lookupD (add_artist_genre s a g).genre_artists g).card := by
  have h : add_artist_genre (add_artist_genre s a g) a g
      = add_artist_genre s a g := by
    simp [add_artist_genre, dadd_idem]
  exact ⟨h, by rw [h], by rw [h]⟩

/-! ## Discovery scorer (src/taste_explorer.py, `calculate_discovery_scores`,
lines 116-147) -/

/-- Union of all genre sets stored in `artist_genres` (the `user_genres`
accumulation of lines 121-125). -/
def userGenresOf (ag : SMap) : Finset String :=
  ag.foldl (fun acc e => acc ∪ e.2) ∅

/-- `len(artist_genres & user_genres) / max(len(user_genres), 1)` (line 133). -/
def genreScore (artistGenres userGenres : Finset String) : ℚ :=
  ((artistGenres ∩ userGenres).card : ℚ) / ((max userGenres.card 1 : ℕ) : ℚ)

/-- `len(self.artist_connections[artist_id]) / 20.0` (line 136). -/
def connectionScore (conns : Finset String) : ℚ :=
  (conns.card : ℚ) / 20

/-- `1.0 - (track_info['popularity'] / 100.0)` (line 139). -/
def popularityScore (pop : ℕ) : ℚ :=
  1 - (pop : ℚ) / 100

/-- The combined per-track discovery score (line 143). -/
def discoveryScore (userGenres artistGenres conns : Finset String)
    (pop : ℕ) : ℚ :=
  0.4 * genreScore artistGenres userGenres + 0.3 * connectionScore conns
    + 0.3 * popularityScore pop

/-- Body of the scoring loop (lines 128-145) for one track: the two
`defaultdict` reads at lines 132 and 136 thread the possibly-extended maps. -/
def scoreStep (userGenres : Finset String) (ag ac : SMap) (info : TrackInfo) :
    ℚ × SMap × SMap :=
  let r1 := dread ag info.artist_id
  let r2 := dread ac info.artist_id
  (0.4 * genreScore r1.1 userGenres + 0.3 * connectionScore r2.1
    + 0.3 * popularityScore info.popularity, r1.2, r2.2)

/-- The scoring loop over `self.track_features.items()` (lines 128-145). -/
def scoresLoop (userGenres : Finset String) (ag ac : SMap) :
    List (String × TrackInfo) → List (String × ℚ) × SMap × SMap
  | [] => ([], ag, ac)
  | (tid, info) :: rest =>
    let st := scoreStep userGenres ag ac info
    let r := scoresLoop userGenres st.2.1 st.2.2 rest
    ((tid, st.1) :: r.1, r.2)

/-- `calculate_discovery_scores` (lines 116-147): computes the per-track
scores and returns the state as left behind by the `defaultdict` reads. -/
def calculate_discovery_scores (s : GraphState) :
    List (String × ℚ) × GraphState :=
  let userGenres := userGenresOf s.artist_genres
  let r := scoresLoop userGenres s.artist_genres s.artist_connections
    s.track_features
  (r.1, { s with artist_genres := r.2.1, artist_connections := r.2.2 })

theorem lookupD_append_empty (m : SMap) (k' k : String) :
    lookupD (m ++ [(k', ∅)]) k = lookupD m k := by
  induction m with
  | nil =>
    simp only [List.nil_append, lookupD, List.lookup]
    cases h : k == k' <;> simp [h]
  | cons e rest ih =>
    rcases e with ⟨a, s⟩
    simp only [List.cons_append, lookupD, List.lookup] at *
    cases h : k == a <;> simp [h, ih]

theorem dread_fst (m : SMap) (k : String) : (dread m k).1 = lookupD m k := by
  unfold dread lookupD
  cases h : m.lookup k <;> simp [h]

theorem dread_snd_lookupD (m : SMap) (k' k : String) :
    lookupD (dread m k').2 k = lookupD m k := by
  unfold dread
  cases h : m.lookup k' with
  | some v => simp
  | none => simp [lookupD_append_empty]

theorem userGenresOf_append_empty (m : SMap) (k' : String) :
    userGenresOf (m ++ [(k', ∅)]) = userGenresOf m := by
  unfold userGenresOf
  rw [List.foldl_append]
  simp

theorem dread_snd_userGenres (m : SMap) (k' : String) :
    userGenresOf (dread m k').2 = userGenresOf m := by
  unfold dread
  cases h : m.lookup k' with
  | some v => simp
  | none => simp [userGenresOf_append_empty]

/-- The scoring loop computes, for every track, the closed-form discovery
score over the initial map contents, and the maps it leaves behind are
observationally unchanged (same lookup-with-default view, same genre
union). -/
theorem scoresLoop_spec (userGenres : Finset String) :
    ∀ (ts : List (String × TrackInfo)) (ag ac : SMap),
      (scoresLoop userGenres ag ac ts).1 =
        ts.map (fun p => (p.1, discoveryScore userGenres
          (lookupD ag p.2.artist_id) (lookupD ac p.2.artist_id)
          p.2.popularity)) ∧
      (∀ k, lookupD (scoresLoop userGenres ag ac ts).2.1 k = lookupD ag k) ∧
      (∀ k, lookupD (scoresLoop userGenres ag ac ts).2.2 k = lookupD ac k) ∧
      userGenresOf (scoresLoop userGenres ag ac ts).2.1 = userGenresOf ag := by
  intro ts
  induction ts with
  | nil => intro ag ac; simp [scoresLoop]
  | cons p rest ih =>
    intro ag ac
    rcases p with ⟨tid, info⟩
    obtain ⟨ih1, ih2, ih3, ih4⟩ :=
      ih (dread ag info.artist_id).2 (dread ac info.artist_id).2
    refine ⟨?_, ?_, ?_, ?_⟩
    · simp only [scoresLoop, scoreStep, List.map_cons]
      refine congrArg₂ _ ?_ ?_
      · rw [dread_fst, dread_fst]
        rfl
      · rw [ih1]
        apply List.map_congr_left
        intro q _
        rw [dread_snd_lookupD, dread_snd_lookupD]
    · intro k
      simp only [scoresLoop, scoreStep]
      rw [ih2 k, dread_snd_lookupD]
    · intro k
      simp only [scoresLoop, scoreStep]
      rw [ih3 k, dread_snd_lookupD]
    · simp only [scoresLoop, scoreStep]
      rw [ih4, dread_snd_userGenres]

/-- C3: every computed discovery score equals
0.4·genre + 0.3·connection + 0.3·(1 − popularity/100) over the initial graph
state; a track with no genre overlap and no related-artist edges scores
exactly 0.3·(1 − popularity/100); and the connection score is unclamped, so
it exceeds 1.0 for an artist with more than 20 related edges. -/
theorem discovery_score_formula :
    (∀ s : GraphState, (calculate_discovery_scores s).1 =
      s.track_features.map (fun p => (p.1,
        discoveryScore (userGenresOf s.artist_genres)
          (lookupD s.artist_genres p.2.artist_id)
          (lookupD s.artist_connections p.2.artist_id)
          p.2.popularity))) ∧
    (∀ (ug ag conns : Finset String) (pop : ℕ),
      ag ∩ ug = ∅ → conns = ∅ →
      discoveryScore ug ag conns pop = 0.3 * (1 - (pop : ℚ) / 100)) ∧
    (∀ conns : Finset String, 20 < conns.card → 1 < connectionScore conns) := by
  refine ⟨?_, ?_, ?_⟩
  · intro s
    exact (scoresLoop_spec (userGenresOf s.artist_genres) s.track_features
      s.artist_genres s.artist_connections).1
  · intro ug ag conns pop hinter hconns
    subst hconns
    simp [discoveryScore, genreScore, connectionScore, popularityScore,
      hinter]
  · intro conns hcard
    have h : (20 : ℚ) < (conns.card : ℚ) := by exact_mod_cast hcard
    unfold connectionScore
    rw [lt_div_iff₀ (by norm_num : (0:ℚ) < 20)]
    linarith

/-- Concrete state used to exercise the discovery scorer: one recorded track
whose primary artist "X" is not a key of any graph map. -/
def sampleState : GraphState :=
  { artist_connections := []
    artist_genres := [("A", {"rock"})]
    genre_artists := [("rock", {"A"})]
    artist_tracks := [("A", {"t1"})]
    track_features := [("t1", ⟨"Song", 40, none, "X name", "X"⟩)] }

/-- Concrete related-artist set with 25 members. -/
def conns25 : Finset String := ((List.range 25).map (fun n => toString n)).toFinset

/-- C3 witness: the formula theorem applied to `sampleState`, the no-overlap
special case at a concrete popularity of 40, and the unclamped connection
score at a concrete 25-edge relation set. -/
theorem discovery_score_formula_witness :
    ((calculate_discovery_scores sampleState).1 =
      sampleState.track_features.map (fun p => (p.1,
        discoveryScore (userGenresOf sampleState.artist_genres)
          (lookupD sampleState.artist_genres p.2.artist_id)
          (lookupD sampleState.artist_connections p.2.artist_id)
          p.2.popularity))) ∧
    (({"jazz"} : Finset String) ∩ ({"rock"} : Finset String) = ∅ ∧
      discoveryScore {"rock"} {"jazz"} ∅ 40 = 0.3 * (1 - (40 : ℚ) / 100)) ∧
    (20 < conns25.card ∧ 1 < connectionScore conns25) :=
  ⟨discovery_score_formula.1 sampleState,
    ⟨by decide,
      discovery_score_formula.2.1 {"rock"} {"jazz"} ∅ 40 (by decide) rfl⟩,
    ⟨by decide, discovery_score_formula.2.2 conns25 (by decide)⟩⟩

/-- C7 counterexample: computing discovery scores on `sampleState` grows the
key set of `artist_genres` — the defaultdict read at line 132 inserts the
missing artist key "X" — so the scorer does not leave every graph map
unchanged. -/
theorem discovery_scores_mutates_keys_cex :
    (calculate_discovery_scores sampleState).2.artist_genres
        ≠ sampleState.artist_genres ∧
      ((calculate_discovery_scores sampleState).2.artist_genres.map Prod.fst
        = ["A", "X"]) ∧
      sampleState.artist_genres.map Prod.fst = ["A"] := by
  refine ⟨?_, by decide, by decide⟩
  intro h
  have := congrArg (List.map Prod.fst) h
  revert this
  decide

/-- C7 amended: the discovery scorer is deterministic and observationally
pure — it never changes `genre_artists`, `artist_tracks`, `track_features`,
nor the lookup-with-default view of `artist_genres` or
`artist_connections`, and a repeated call on the state it leaves behind
returns the same scores — but the defaultdict reads may grow the key sets of
`artist_genres` and `artist_connections` by inserting missing artist keys
with empty sets. -/
theorem discovery_scores_frame (s : GraphState) :
    (calculate_discovery_scores s).2.genre_artists = s.genre_artists ∧
    (calculate_discovery_scores s).2.artist_tracks = s.artist_tracks ∧
    (calculate_discovery_scores s).2.track_features = s.track_features ∧
    (∀ k, lookupD (calculate_discovery_scores s).2.artist_genres k
      = lookupD s.artist_genres k) ∧
    (∀ k, lookupD (calculate_discovery_scores s).2.artist_connections k
      = lookupD s.artist_connections k) ∧
    (calculate_discovery_scores (calculate_discovery_scores s).2).1
      = (calculate_discovery_scores s).1 := by
  obtain ⟨h1, h2, h3, h4⟩ := scoresLoop_spec (userGenresOf s.artist_genres)
    s.track_features s.artist_genres s.artist_connections
  refine ⟨rfl, rfl, rfl, h2, h3, ?_⟩
  set s' := (calculate_discovery_scores s).2 with hs'
  obtain ⟨g1, _, _, _⟩ := scoresLoop_spec (userGenresOf s'.artist_genres)
    s'.track_features s'.artist_genres s'.artist_connections
  have hug : userGenresOf s'.artist_genres = userGenresOf s.artist_genres := h4
  have htf : s'.track_features = s.track_features := rfl
  calc (calculate_discovery_scores s').1
      = s'.track_features.map (fun p => (p.1,
          discoveryScore (userGenresOf s'.artist_genres)
            (lookupD s'.artist_genres p.2.artist_id)
            (lookupD s'.artist_connections p.2.artist_id)
            p.2.popularity)) := g1
    _ = s.track_features.map (fun p => (p.1,
          discoveryScore (userGenresOf s.artist_genres)
            (lookupD s.artist_genres p.2.artist_id)
            (lookupD s.artist_connections p.2.artist_id)
            p.2.popularity)) := by
          have h2' : ∀ k, lookupD s'.artist_genres k
              = lookupD s.artist_genres k := h2
          have h3' : ∀ k, lookupD s'.artist_connections k
              = lookupD s.artist_connections k := h3
          rw [htf, hug]
          apply List.map_congr_left
          intro q _
          rw [h2', h3']
    _ = (calculate_discovery_scores s).1 := h1.symm

/-! ## Tuner scorer (src/taste_tuner.py)

The `TasteTuner` scoring functions.  User data is the key set of
`self.user_top_artists` and of `self.user_top_genres` (the stored artist
names/popularities and genre counts are never read by the scorers).  The
`sp.artist` network fetch inside `calculate_genre_match` is supplied as a
function `String → Option (Finset String)`; `none` models the fetch raising
(the bare `except` at line 122), which also swallows the `IndexError` of an
empty credit list. -/

/-- A candidate track as consumed by the tuner scorers: id, the ordered
artist-id credits (first credit = primary artist), and popularity. -/
structure TTrack where
  id : String
  artists : List String
  popularity : ℕ
deriving DecidableEq

/-- The artist loop of `calculate_artist_match` (lines 106-108): return 1.0
on the first credited artist found among the user's top artists. -/
def artistMatchLoop (known : Finset String) : List String → ℚ
  | [] => 0
  | a :: rest => if a ∈ known then 1 else artistMatchLoop known rest

/-- `calculate_artist_match` (lines 104-109). -/
def calculate_artist_match (known : Finset String) (track : TTrack) : ℚ :=
  artistMatchLoop known track.artists

/-- `calculate_genre_match` (lines 111-123): fetch the primary artist's
genres; any raised error (including the IndexError of an empty credit list)
yields 0.0; empty user or artist genre sets yield 0.0; otherwise the
intersection size over the user genre count. -/
def calculate_genre_match (fetchGenres : String → Option (Finset String))
    (userGenres : Finset String) (track : TTrack) : ℚ :=
  match track.artists.head? with
  | none => 0
  | some a0 =>
    match fetchGenres a0 with
    | none => 0
    | some artistGenres =>
      if userGenres = ∅ ∨ artistGenres = ∅ then 0
      else ((artistGenres ∩ userGenres).card : ℚ) / (userGenres.card : ℚ)

/-- `calculate_popularity_score` (lines 125-127). -/
def calculate_popularity_score (track : TTrack) : ℚ :=
  (track.popularity : ℚ) / 100

/-- The five weight coefficients of `self.weights` (§ScoreWeights). -/
structure ScoreWeights where
  artist_match : ℚ
  genre_match : ℚ
  popularity : ℚ
  audio_match : ℚ
  diversity : ℚ
deriving DecidableEq

/-- The weight preset assigned in `__init__` (lines 62-68). -/
def defaultWeights : ScoreWeights :=
  { artist_match := 0.25, genre_match := 0.25, popularity := 0.2,
    audio_match := 0.4, diversity := 0.5 }

/-- The per-track total score computed inside `optimize_playlist`
(lines 304-314): only the artist, genre and popularity terms enter the ILP
objective. -/
def ilpTrackScore (w : ScoreWeights)
    (fetchGenres : String → Option (Finset String))
    (known userGenres : Finset String) (track : TTrack) : ℚ :=
  w.artist_match * calculate_artist_match known track
    + w.genre_match * calculate_genre_match fetchGenres userGenres track
    + w.popularity * calculate_popularity_score track

/-- The `track_scores` accumulation loop of `optimize_playlist`
(lines 303-314). -/
def ilpTrackScores (w : ScoreWeights)
    (fetchGenres : String → Option (Finset String))
    (known userGenres : Finset String) : List TTrack → List ℚ
  | [] => []
  | t :: rest => ilpTrackScore w fetchGenres known userGenres t ::
      ilpTrackScores w fetchGenres known userGenres rest

/-- The per-track score computed — and only printed — in
`create_optimized_playlist` (lines 352-366): artist, genre, popularity and
diversity terms; still no audio term. -/
def displayTrackScore (w : ScoreWeights)
    (fetchGenres : String → Option (Finset String))
    (known userGenres : Finset String) (track : TTrack) : ℚ :=
  w.artist_match * calculate_artist_match known track
    + w.genre_match * calculate_genre_match fetchGenres userGenres track
    + w.popularity * calculate_popularity_score track
    + w.diversity * (1 - (calculate_artist_match known track * 0.5
        + calculate_popularity_score track * 0.5))

/-! ## Audio feature matching (src/taste_tuner.py, `calculate_audio_match`,
lines 206-231) -/

/-- The six Spotify audio features the tuner reads. -/
inductive AudioFeature
  | danceability | energy | valence | instrumentalness | acousticness | tempo
deriving DecidableEq, Fintype

/-- A Python dict of audio features: each feature is present or absent. -/
abbrev FeatDict := AudioFeature → Option ℚ

/-- The fixed feature weights of `calculate_audio_match` (lines 213-219);
tempo carries no weight. -/
def audioWeights : List (AudioFeature × ℚ) :=
  [(.danceability, 1), (.energy, 1), (.valence, 0.8),
   (.instrumentalness, 0.5), (.acousticness, 0.7)]

/-- The weighted per-feature distances (lines 221-224): a distance is
recorded only for features present in both dicts. -/
def featureDistances (t u : FeatDict) : List ℚ :=
  audioWeights.filterMap (fun fw =>
    match t fw.1, u fw.1 with
    | some a, some b => some (|a - b| * fw.2)
    | _, _ => none)

/-- `calculate_audio_match` (lines 206-231).  An empty feature dict is falsy
in Python, so either dict being empty returns 0.0 at line 209; an empty
distance list returns 0.0 at line 227; otherwise the score is
`1.0 - min(np.mean(distances), 1.0)`. -/
def calculate_audio_match (t u : FeatDict) : ℚ :=
  if (∀ f, t f = none) ∨ (∀ f, u f = none) then 0
  else if featureDistances t u = [] then 0
  else 1 - min ((featureDistances t u).sum
    / ((featureDistances t u).length : ℚ)) 1

/-- Modelled from the spec (§4.4): the five-component Tuner Scorer total in
which every sub-score — audio-feature similarity and diversity included —
is multiplied by its ScoreWeights coefficient.  The repository never
computes this quantity; it exists here only to compare the claimed
objective with the implemented one. -/
def specTotalScore (w : ScoreWeights)
    (fetchGenres : String → Option (Finset String))
    (known userGenres : Finset String) (track : TTrack)
    (trackFeatures userPrefs : FeatDict) : ℚ :=
  w.artist_match * calculate_artist_match known track
    + w.genre_match * calculate_genre_match fetchGenres userGenres track
    + w.popularity * calculate_popularity_score track
    + w.audio_match * calculate_audio_match trackFeatures userPrefs
    + w.diversity * (1 - (calculate_artist_match known track * 0.5
        + calculate_popularity_score track * 0.5))

/-- C4 counterexample: at a concrete candidate the ILP objective coefficient
(0) differs from the claimed five-component total (1/2 under the default
weights, because the diversity term alone contributes 0.5·1), so the
constrained selector does not combine all five sub-scores. -/
theorem ilp_score_missing_components_cex :
    ilpTrackScore defaultWeights (fun _ => none) ∅ ∅ ⟨"T0", ["A9"], 0⟩ = 0 ∧
    specTotalScore defaultWeights (fun _ => none) ∅ ∅ ⟨"T0", ["A9"], 0⟩
      (fun _ => none) (fun _ => none) = 1/2 ∧
    (0 : ℚ) ≠ 1/2 := by
  refine ⟨?_, ?_, by norm_num⟩
  · simp [ilpTrackScore, calculate_artist_match, artistMatchLoop,
      calculate_genre_match, calculate_popularity_score, defaultWeights]
  · simp [specTotalScore, calculate_artist_match, artistMatchLoop,
      calculate_genre_match, calculate_popularity_score,
      calculate_audio_match, defaultWeights]
    norm_num

/-- C4 amended: the score maximized by the ILP selector combines exactly
three weighted sub-scores — artist match, genre match and popularity; the
diversity term appears only in the printed scores of
`create_optimized_playlist`, and the audio-match sub-score enters neither
total. -/
theorem ilp_score_three_components :
    (∀ (w : ScoreWeights) (fetchGenres : String → Option (Finset String))
      (known userGenres : Finset String) (ts : List TTrack),
      ilpTrackScores w fetchGenres known userGenres ts = ts.map (fun t =>
        w.artist_match * calculate_artist_match known t
        + w.genre_match * calculate_genre_match fetchGenres userGenres t
        + w.popularity * calculate_popularity_score t)) ∧
    (∀ (w : ScoreWeights) (fetchGenres : String → Option (Finset String))
      (known userGenres : Finset String) (t : TTrack),
      displayTrackScore w fetchGenres known userGenres t =
        w.artist_match * calculate_artist_match known t
        + w.genre_match * calculate_genre_match fetchGenres userGenres t
        + w.popularity * calculate_popularity_score t
        + w.diversity * (1 - (calculate_artist_match known t * 0.5
            + calculate_popularity_score t * 0.5))) := by
  constructor
  · intro w fetchGenres known userGenres ts
    induction ts with
    | nil => rfl
    | cons t rest ih => simp [ilpTrackScores, ilpTrackScore, ih]
  · intro w fetchGenres known userGenres t
    rfl

/-- Concrete track whose primary credit "A2" is unknown but whose second
credit "A1" is among the user's top artists. -/
def trackA : TTrack := { id := "T", artists := ["A2", "A1"], popularity := 50 }

/-- C5 counterexample: `calculate_artist_match` returns 1.0 for a track
whose primary artist is outside the known set, because a non-primary credit
is inside it — membership of non-primary credits does affect the score. -/
theorem artist_match_nonprimary_cex :
    calculate_artist_match {"A1"} trackA = 1 ∧
    trackA.artists.head? = some "A2" ∧
    "A2" ∉ ({"A1"} : Finset String) ∧
    (1 : ℚ) ≠ 0 := by
  refine ⟨?_, by decide, by decide, by decide⟩
  simp [calculate_artist_match, trackA, artistMatchLoop]

theorem artistMatchLoop_iff (known : Finset String) (l : List String) :
    (artistMatchLoop known l = 1 ↔ ∃ a ∈ l, a ∈ known) ∧
    (artistMatchLoop known l = 0 ↔ ¬ ∃ a ∈ l, a ∈ known) := by
  induction l with
  | nil => simp [artistMatchLoop]
  | cons a rest ih =>
    by_cases h : a ∈ known
    · simp [artistMatchLoop, h]
    · simp only [artistMatchLoop, if_neg h, List.mem_cons]
      constructor
      · rw [ih.1]
        constructor
        · rintro ⟨x, hx, hxk⟩
          exact ⟨x, Or.inr hx, hxk⟩
        · rintro ⟨x, hx | hx, hxk⟩
          · subst hx; exact absurd hxk h
          · exact ⟨x, hx, hxk⟩
      · rw [ih.2]
        constructor
        · rintro hne ⟨x, hx | hx, hxk⟩
          · subst hx; exact absurd hxk h
          · exact hne ⟨x, hx, hxk⟩
        · rintro hne ⟨x, hx, hxk⟩
          exact hne ⟨x, Or.inr hx, hxk⟩

/-- C5 amended: the artist-match sub-score is 1.0 exactly when some credited
artist (primary or not) belongs to the user's known-artist set, and 0.0
exactly otherwise. -/
theorem artist_match_any_credited (known : Finset String) (track : TTrack) :
    (calculate_artist_match known track = 1
      ↔ ∃ a ∈ track.artists, a ∈ known) ∧
    (calculate_artist_match known track = 0
      ↔ ¬ ∃ a ∈ track.artists, a ∈ known) :=
  artistMatchLoop_iff known track.artists

/-- C10: `calculate_audio_match` is symmetric in its two arguments — the
emptiness guard, the present-in-both condition and the absolute per-feature
differences are all symmetric. -/
theorem audio_match_symm (a b : FeatDict) :
    calculate_audio_match a b = calculate_audio_match b a := by
  have hds : featureDistances a b = featureDistances b a := by
    unfold featureDistances
    apply List.filterMap_congr
    intro fw _
    cases ha : a fw.1 <;> cases hb : b fw.1 <;> simp [abs_sub_comm]
  unfold calculate_audio_match
  by_cases h : (∀ f, a f = none) ∨ (∀ f, b f = none)
  · rw [if_pos h, if_pos h.symm]
  · have h2 : ¬((∀ f, b f = none) ∨ (∀ f, a f = none)) := fun h' => h h'.symm
    rw [hds, if_neg h, if_neg h2]

theorem distancesAux_mono (t1 t2 u : FeatDict)
    (hpres : ∀ f, (t1 f).isSome = (t2 f).isSome)
    (hdist : ∀ f a1 a2 b, t1 f = some a1 → t2 f = some a2 → u f = some b →
      |a1 - b| ≤ |a2 - b|) :
    ∀ l : List (AudioFeature × ℚ), (∀ fw ∈ l, (0:ℚ) ≤ fw.2) →
      ((l.filterMap (fun fw =>
        match t1 fw.1, u fw.1 with
        | some a, some b => some (|a - b| * fw.2)
        | _, _ => none)).length
        = (l.filterMap (fun fw =>
        match t2 fw.1, u fw.1 with
        | some a, some b => some (|a - b| * fw.2)
        | _, _ => none)).length) ∧
      ((l.filterMap (fun fw =>
        match t1 fw.1, u fw.1 with
        | some a, some b => some (|a - b| * fw.2)
        | _, _ => none)).sum
        ≤ (l.filterMap (fun fw =>
        match t2 fw.1, u fw.1 with
        | some a, some b => some (|a - b| * fw.2)
        | _, _ => none)).sum) := by
  intro l
  induction l with
  | nil => intro _; simp
  | cons fw rest ih =>
    intro hw
    obtain ⟨ihl, ihs⟩ := ih (fun x hx => hw x (List.mem_cons_of_mem fw hx))
    have hwfw : (0:ℚ) ≤ fw.2 := hw fw (List.mem_cons_self fw rest)
    cases h1 : t1 fw.1 with
    | none =>
      have h2 : t2 fw.1 = none := by
        have := hpres fw.1
        rw [h1] at this
        cases h2 : t2 fw.1 with
        | none => rfl
        | some v => rw [h2] at this; simp at this
      simp only [List.filterMap_cons, h1, h2]
      exact ⟨ihl, ihs⟩
    | some a1 =>
      have h2 : ∃ a2, t2 fw.1 = some a2 := by
        have := hpres fw.1
        rw [h1] at this
        cases h2 : t2 fw.1 with
        | none => rw [h2] at this; simp at this
        | some v => exact ⟨v, rfl⟩
      obtain ⟨a2, h2⟩ := h2
      cases hu : u fw.1 with
      | none =>
        simp only [List.filterMap_cons, h1, h2, hu]
        exact ⟨ihl, ihs⟩
      | some b =>
        simp only [List.filterMap_cons, h1, h2, hu, List.length_cons,
          List.sum_cons]
        refine ⟨by omega, ?_⟩
        have hab : |a1 - b| ≤ |a2 - b| := hdist fw.1 a1 a2 b h1 h2 hu
        have := mul_le_mul_of_nonneg_right hab hwfw
        linarith

/-- The monotone comparison of distance lists, specialized to the code's
weight table. -/
theorem featureDistances_mono (t1 t2 u : FeatDict)
    (hpres : ∀ f, (t1 f).isSome = (t2 f).isSome)
    (hdist : ∀ f a1 a2 b, t1 f = some a1 → t2 f = some a2 → u f = some b →
      |a1 - b| ≤ |a2 - b|) :
    (featureDistances t1 u).length = (featureDistances t2 u).length ∧
    (featureDistances t1 u).sum ≤ (featureDistances t2 u).sum := by
  have hw : ∀ fw ∈ audioWeights, (0:ℚ) ≤ fw.2 := by
    intro fw hfw
    fin_cases hfw <;> norm_num
  exact distancesAux_mono t1 t2 u hpres hdist audioWeights hw

/-- C6: the audio-match score (1) equals 1.0 when the two dicts agree
exactly on every weighted feature present in both and at least one weighted
feature is present in both; (2) is monotonically non-increasing as any
single feature's absolute difference increases (presence pattern fixed);
(3) is floored at 0.0 once the weighted mean distance reaches 1.0; and
(4) equals 0.0 when no weighted feature is present in both dicts — missing
data is never treated as a perfect match. -/
theorem audio_match_spec :
    (∀ t u : FeatDict,
      (∀ fw ∈ audioWeights, ∀ x y, t fw.1 = some x → u fw.1 = some y → x = y) →
      (∃ fw ∈ audioWeights, (t fw.1).isSome = true ∧ (u fw.1).isSome = true) →
      calculate_audio_match t u = 1) ∧
    (∀ t1 t2 u : FeatDict, ∀ g : AudioFeature,
      (∀ f, f ≠ g → t1 f = t2 f) →
      (∀ f, (t1 f).isSome = (t2 f).isSome) →
      (∀ a1 a2 b, t1 g = some a1 → t2 g = some a2 → u g = some b →
        |a1 - b| ≤ |a2 - b|) →
      calculate_audio_match t2 u ≤ calculate_audio_match t1 u) ∧
    (∀ t u : FeatDict,
      1 ≤ (featureDistances t u).sum / ((featureDistances t u).length : ℚ) →
      calculate_audio_match t u = 0) ∧
    (∀ t u : FeatDict,
      (∀ fw ∈ audioWeights, t fw.1 = none ∨ u fw.1 = none) →
      calculate_audio_match t u = 0) := by
  refine ⟨?_, ?_, ?_, ?_⟩
  -- (1) exact agreement on every weighted feature present in both
  · intro t u hagree hpresent
    obtain ⟨fw0, hfw0, hts, hus⟩ := hpresent
    obtain ⟨x0, hx0⟩ := Option.isSome_iff_exists.mp hts
    obtain ⟨y0, hy0⟩ := Option.isSome_iff_exists.mp hus
    have hne : ¬((∀ f, t f = none) ∨ (∀ f, u f = none)) := by
      rintro (h | h)
      · rw [h fw0.1] at hx0
        exact Option.noConfusion hx0
      · rw [h fw0.1] at hy0
        exact Option.noConfusion hy0
    have hmem : (|x0 - y0| * fw0.2) ∈ featureDistances t u := by
      unfold featureDistances
      exact List.mem_filterMap.mpr ⟨fw0, hfw0, by rw [hx0, hy0]⟩
    have hall : ∀ d ∈ featureDistances t u, d = 0 := by
      intro d hd
      unfold featureDistances at hd
      obtain ⟨fw, hfw, heq⟩ := List.mem_filterMap.mp hd
      cases ht : t fw.1 with
      | none => rw [ht] at heq; simp at heq
      | some a =>
        cases hu : u fw.1 with
        | none => rw [ht, hu] at heq; simp at heq
        | some b =>
          rw [ht, hu] at heq
          simp only [Option.some.injEq] at heq
          have hab : a = b := hagree fw hfw a b ht hu
          rw [← heq, hab, sub_self, abs_zero, zero_mul]
    have hsum : (featureDistances t u).sum = 0 := List.sum_eq_zero hall
    have hne2 : featureDistances t u ≠ [] := List.ne_nil_of_mem hmem
    unfold calculate_audio_match
    rw [if_neg hne, if_neg hne2, hsum, zero_div]
    norm_num
  -- (2) monotone in any single feature's distance
  · intro t1 t2 u g hfg hpres hg
    have hpd : ∀ f a1 a2 b, t1 f = some a1 → t2 f = some a2 →
        u f = some b → |a1 - b| ≤ |a2 - b| := by
      intro f a1 a2 b h1f h2f huf
      by_cases hf : f = g
      · subst hf
        exact hg a1 a2 b h1f h2f huf
      · rw [hfg f hf] at h1f
        rw [h1f] at h2f
        injection h2f with h'
        rw [h']
    obtain ⟨hlen, hsum⟩ := featureDistances_mono t1 t2 u hpres hpd
    have hnone : ∀ f, t1 f = none ↔ t2 f = none := by
      intro f
      rw [← Option.not_isSome_iff_eq_none, ← Option.not_isSome_iff_eq_none,
        hpres f]
    have hemp : ((∀ f, t1 f = none) ∨ (∀ f, u f = none))
        ↔ ((∀ f, t2 f = none) ∨ (∀ f, u f = none)) := by
      constructor
      · rintro (h | h)
        · exact Or.inl (fun f => (hnone f).mp (h f))
        · exact Or.inr h
      · rintro (h | h)
        · exact Or.inl (fun f => (hnone f).mpr (h f))
        · exact Or.inr h
    unfold calculate_audio_match
    by_cases he : (∀ f, t2 f = none) ∨ (∀ f, u f = none)
    · rw [if_pos he, if_pos (hemp.mpr he)]
    · rw [if_neg he, if_neg (fun hh => he (hemp.mp hh))]
      by_cases hd1 : featureDistances t1 u = []
      · have hd2 : featureDistances t2 u = [] := by
          rw [hd1] at hlen
          exact List.length_eq_zero.mp hlen.symm
        rw [if_pos hd2, if_pos hd1]
      · have hd2 : featureDistances t2 u ≠ [] := by
          intro h
          apply hd1
          rw [h] at hlen
          exact List.length_eq_zero.mp hlen
        rw [if_neg hd2, if_neg hd1]
        have hlpos : 0 < (featureDistances t1 u).length :=
          List.length_pos.mpr hd1
        have hlq : (0:ℚ) < ((featureDistances t1 u).length : ℚ) := by
          exact_mod_cast hlpos
        have hdiv : (featureDistances t1 u).sum
              / ((featureDistances t1 u).length : ℚ)
            ≤ (featureDistances t2 u).sum
              / ((featureDistances t2 u).length : ℚ) := by
          rw [← hlen]
          exact (div_le_div_iff_of_pos_right hlq).mpr hsum
        have hmin := min_le_min hdiv (le_refl (1:ℚ))
        linarith
  -- (3) floored at zero once the mean distance reaches 1
  · intro t u h
    unfold calculate_audio_match
    by_cases hemp : (∀ f, t f = none) ∨ (∀ f, u f = none)
    · rw [if_pos hemp]
    · rw [if_neg hemp]
      by_cases hds : featureDistances t u = []
      · rw [if_pos hds]
      · rw [if_neg hds, min_eq_right h, sub_self]
  -- (4) no weighted feature present in both
  · intro t u h
    have hds : featureDistances t u = [] := by
      unfold featureDistances
      rw [List.filterMap_eq_nil_iff]
      intro fw hfw
      rcases h fw hfw with h' | h'
      · rw [h']
      · rw [h']
        cases t fw.1 <;> rfl
    unfold calculate_audio_match
    by_cases hemp : (∀ f, t f = none) ∨ (∀ f, u f = none)
    · rw [if_pos hemp]
    · rw [if_neg hemp, if_pos hds]

/-- Feature dict with every feature present and equal to 1. -/
def vOne : FeatDict := fun _ => some 1

/-- Like `vOne` except danceability is 3. -/
def vThree : FeatDict := fun f =>
  match f with
  | .danceability => some 3
  | _ => some 1

/-- Feature dict with every feature present and equal to 0. -/
def vZero : FeatDict := fun _ => some 0

/-- Feature dict with every feature present and equal to 5. -/
def vFive : FeatDict := fun _ => some 5

/-- Dict carrying only the unweighted tempo feature. -/
def vTempoOnly : FeatDict := fun f =>
  match f with
  | .tempo => some 120
  | _ => none

/-- C6 witness: the four parts of the audio-match theorem instantiated at
concrete feature dicts — identical dicts score 1, growing the danceability
distance does not raise the score, a mean distance of 4 floors the score at
0, and tempo-only dicts (no weighted feature) score 0. -/
theorem audio_match_spec_witness :
    calculate_audio_match vOne vOne = 1 ∧
    calculate_audio_match vThree vOne ≤ calculate_audio_match vOne vOne ∧
    (1 ≤ (featureDistances vZero vFive).sum
        / ((featureDistances vZero vFive).length : ℚ) ∧
      calculate_audio_match vZero vFive = 0) ∧
    calculate_audio_match vTempoOnly vTempoOnly = 0 := by
  have h3 : 1 ≤ (featureDistances vZero vFive).sum
      / ((featureDistances vZero vFive).length : ℚ) := by
    norm_num [featureDistances, audioWeights, vZero, vFive,
      List.filterMap_cons]
  refine ⟨?_, ?_, ⟨h3, ?_⟩, ?_⟩
  · exact audio_match_spec.1 vOne vOne
      (fun fw _ x y hx hy => by
        simp only [vOne, Option.some.injEq] at hx hy
        rw [← hx, ← hy])
      ⟨(.danceability, 1), by simp [audioWeights], rfl, rfl⟩
  · exact audio_match_spec.2.1 vOne vThree vOne .danceability
      (fun f hf => by
        cases f with
        | danceability => exact absurd rfl hf
        | energy => rfl
        | valence => rfl
        | instrumentalness => rfl
        | acousticness => rfl
        | tempo => rfl)
      (fun f => by cases f <;> rfl)
      (fun a1 a2 b h1 h2 hb => by
        simp only [vOne, vThree, Option.some.injEq] at h1 h2 hb
        rw [← h1, ← h2, ← hb]
        norm_num)
  · exact audio_match_spec.2.2.1 vZero vFive h3
  · exact audio_match_spec.2.2.2 vTempoOnly vTempoOnly
      (fun fw hfw => by fin_cases hfw <;> exact Or.inl rfl)

/-! ## Audio preference aggregation (src/taste_tuner.py,
`calculate_audio_preference`, lines 153-200)

The three history-window fetches and the saved-tracks fallback fetch are
supplied as data.  The Python local variable `features` is only assigned
inside `if top_tracks['items']:`; the embedding models the variable with an
`Option`, where `none` means "never assigned", so that the
`if not features:` test at line 171 on an unassigned variable surfaces as
the NameError Python would raise. -/

/-- Full audio-feature record of a track that has feature data. -/
structure FeatureRecord where
  danceability : ℚ
  energy : ℚ
  valence : ℚ
  instrumentalness : ℚ
  acousticness : ℚ
  tempo : ℚ
deriving DecidableEq

/-- Outcome of one upstream fetch: the parsed payload, or a raised error. -/
inductive Fetch (α : Type)
  | ok (val : α)
  | err
deriving DecidableEq

/-- `get_audio_features` (lines 129-142): per-track feature fetches that
fail or return nothing are skipped, keeping exactly the available records. -/
def get_audio_features (ts : List (Option FeatureRecord)) :
    List FeatureRecord :=
  ts.filterMap id

/-- The window loop of `calculate_audio_preference` (lines 158-168),
threading the `features` local: `none` models the variable never having
been assigned; a window whose fetch raises, or whose item list is empty,
leaves `features` untouched; a non-empty item list assigns the available
records and breaks out of the loop when they are non-empty. -/
def windowsLoop (features : Option (List FeatureRecord)) :
    List (Fetch (List (Option FeatureRecord))) → Option (List FeatureRecord)
  | [] => features
  | w :: rest =>
    match w with
    | .err => windowsLoop features rest
    | .ok items =>
      if items = [] then windowsLoop features rest
      else
        if get_audio_features items = [] then
          windowsLoop (some (get_audio_features items)) rest
        else some (get_audio_features items)

/-- Result of `calculate_audio_preference`: the computed preference record,
or the NameError raised at line 171 when `features` was never assigned. -/
inductive PrefResult
  | prefs (p : FeatureRecord)
  | nameError
deriving DecidableEq

/-- The fixed neutral fallback vector (lines 182-189). -/
def neutralPrefs : FeatureRecord :=
  { danceability := 0.5, energy := 0.5, valence := 0.5,
    instrumentalness := 0.1, acousticness := 0.3, tempo := 120 }

/-- Coordinate-wise `np.mean` over the collected records (lines 193-200). -/
def meanRecord (fs : List FeatureRecord) : FeatureRecord :=
  { danceability := (fs.map (·.danceability)).sum / (fs.length : ℚ)
    energy := (fs.map (·.energy)).sum / (fs.length : ℚ)
    valence := (fs.map (·.valence)).sum / (fs.length : ℚ)
    instrumentalness := (fs.map (·.instrumentalness)).sum / (fs.length : ℚ)
    acousticness := (fs.map (·.acousticness)).sum / (fs.length : ℚ)
    tempo := (fs.map (·.tempo)).sum / (fs.length : ℚ) }

/-- `calculate_audio_preference` (lines 153-200) with all fetch outcomes as
inputs: run the window loop; if `features` was never assigned, the
`if not features:` test raises NameError; if it holds an empty list, try the
saved-tracks fallback (whose own failure leaves `features` unchanged); an
empty result yields the neutral vector, otherwise the coordinate-wise mean. -/
def calculate_audio_preference
    (windows : List (Fetch (List (Option FeatureRecord))))
    (saved : Fetch (List (Option FeatureRecord))) : PrefResult :=
  match windowsLoop none windows with
  | none => .nameError
  | some fs =>
    let fs2 := if fs = [] then
        (match saved with
         | .err => fs
         | .ok items => get_audio_features items)
      else fs
    if fs2 = [] then .prefs neutralPrefs
    else .prefs (meanRecord fs2)

/-- C8: the aggregation is not total.  When every history-window fetch
returns an empty item list (or raises), the local `features` is never
assigned and the `if not features:` test at line 171 raises NameError
instead of falling back to the neutral vector the claim promises; the
fallback does fire in the nearby case where some window produced tracks
without usable feature data. -/
theorem audio_preference_name_error :
    calculate_audio_preference [.ok [], .ok [], .ok []] (.ok []) =
      .nameError ∧
    calculate_audio_preference [.err, .err, .err] (.ok []) = .nameError ∧
    (∀ p : FeatureRecord, PrefResult.nameError ≠ .prefs p) ∧
    calculate_audio_preference [.ok [none], .ok [], .ok []] (.ok []) =
      .prefs neutralPrefs := by
  refine ⟨rfl, rfl, fun p h => PrefResult.noConfusion h, rfl⟩

end TasteTuner
